import Mathlib

/-!
Verification of the snake movement engine (`src/index.tsx`).

The TypeScript source is shallowly embedded: JavaScript numbers that only
ever hold integers become `Int`, tuples become products, `null`/`undefined`
become `Option`, and a thrown `TypeError` (destructuring `undefined`)
becomes `none` in an `Option` result.  The mutable module-level state
(`playing`, `prevSquares`, `nextSquares`, `instructions`, the scheduled
timeout and animation frame) becomes an explicit `GState` record, and the
browser event loop becomes a list of events folded over the state.
-/

namespace Snake

/-- `enum Direction` (source lines 3-8). -/
inductive Direction where
  | Up
  | Right
  | Down
  | Left
deriving DecidableEq

/-- A grid cell / pixel coordinate pair (`type Coord = [number, number]`). -/
abbrev Coord : Type := Int × Int

/-- `type Instruction = [Direction, Coord]` with the coordinate present. -/
abbrev Instr : Type := Direction × Coord

/-- An instruction as actually stored by the program: the coordinate slot can
be `undefined` when the turn was issued before any body existed
(`toCoord(undefined)` in `handleKeyEvents` yields `undefined`). -/
abbrev InstrM : Type := Direction × Option Coord

/-- The `Transforms` table (source lines 10-15): unit step per direction. -/
def Transforms : Direction → Int × Int
  | Direction.Up => (0, 1)
  | Direction.Right => (1, 0)
  | Direction.Down => (0, -1)
  | Direction.Left => (-1, 0)

/-- The fixed configuration read from the canvas at startup: playfield
`width`, `height` and `rectSize = rect.size + rect.spacing` (lines 31-53). -/
structure Cfg where
  width : Int
  height : Int
  rectSize : Int
deriving DecidableEq

/-- `constrainToCanvas` (source lines 55-70).  The source uses two separate
`if` statements per axis, both testing the raw coordinate; when both fire the
second assignment wins, so the `> rightEdge` test is the outer branch here. -/
def constrainToCanvas (cfg : Cfg) (c : Coord) : Coord :=
  let rightEdge := cfg.width - cfg.rectSize
  let bottomEdge := cfg.height - cfg.rectSize
  let cx := if c.1 > rightEdge then 0 else if c.1 < 0 then rightEdge else c.1
  let cy := if c.2 > bottomEdge then 0 else if c.2 < 0 then bottomEdge else c.2
  (cx, cy)

/-- `nextCoords` (source lines 72-75) with the coordinate argument supplied
explicitly (the `= head` default is handled at the call sites that can pass
`undefined`, see `steadyLoop`). -/
def nextCoords (cfg : Cfg) (d : Direction) (c : Coord) : Coord :=
  let t := Transforms d
  constrainToCanvas cfg (c.1 + t.1 * cfg.rectSize, c.2 + t.2 * cfg.rectSize)

/-- `passed` (source lines 77-91) for a segment cell and instruction whose
coordinates are both present. -/
def passed (seg : Coord) (it : Instr) : Bool :=
  match it.1 with
  | Direction.Up => decide (seg.2 > it.2.2)
  | Direction.Right => decide (seg.1 > it.2.1)
  | Direction.Down => decide (seg.2 < it.2.2)
  | Direction.Left => decide (seg.1 < it.2.1)

/-- The turn selection of the game loop (source lines 136-137):
`instructions.find((it) => !passed(segment, it)) || instructions[0]`,
returning `none` only for an empty queue (where `instructions[0]` is
`undefined`). -/
def selectTurn (seg : Coord) (q : List Instr) : Option Instr :=
  match q.find? (fun it => ! passed seg it) with
  | some t => some t
  | none => q.head?

/-! ### Claim C2: the wrap rule and its range. -/

/-- The single-axis wrap performed by `constrainToCanvas`: `e` is the last
in-bounds coordinate (`width - rectSize` resp. `height - rectSize`). -/
def wrapAxis (e v : Int) : Int :=
  if v > e then 0 else if v < 0 then e else v

theorem constrainToCanvas_eq_wrapAxis (cfg : Cfg) (c : Coord) :
    constrainToCanvas cfg c =
      (wrapAxis (cfg.width - cfg.rectSize) c.1,
       wrapAxis (cfg.height - cfg.rectSize) c.2) := rfl

theorem wrapAxis_spec (e v : Int) (he : 0 ≤ e) :
    wrapAxis e v = (if v < 0 then e else if v > e then 0 else v) ∧
    0 ≤ wrapAxis e v ∧ wrapAxis e v ≤ e := by
  unfold wrapAxis
  split_ifs <;> omega

/-- Claim C2: for every raw cell, `constrainToCanvas` replaces `x` by
`width - rectSize` when `x < 0`, by `0` when `x > width - rectSize`, and
leaves it unchanged otherwise, independently per axis (symmetrically for
`y` with the height); the result lies within `[0, width) × [0, height)`,
with no error case. -/
theorem C2_wrap_spec (cfg : Cfg) (hs : 0 < cfg.rectSize)
    (hw : cfg.rectSize ≤ cfg.width) (hh : cfg.rectSize ≤ cfg.height)
    (x y : Int) :
    constrainToCanvas cfg (x, y) =
      ((if x < 0 then cfg.width - cfg.rectSize
        else if x > cfg.width - cfg.rectSize then 0 else x),
       (if y < 0 then cfg.height - cfg.rectSize
        else if y > cfg.height - cfg.rectSize then 0 else y)) ∧
    0 ≤ (constrainToCanvas cfg (x, y)).1 ∧
    (constrainToCanvas cfg (x, y)).1 < cfg.width ∧
    0 ≤ (constrainToCanvas cfg (x, y)).2 ∧
    (constrainToCanvas cfg (x, y)).2 < cfg.height := by
  rw [constrainToCanvas_eq_wrapAxis]
  dsimp only
  obtain ⟨hx1, hx2, hx3⟩ := wrapAxis_spec (cfg.width - cfg.rectSize) x (by omega)
  obtain ⟨hy1, hy2, hy3⟩ := wrapAxis_spec (cfg.height - cfg.rectSize) y (by omega)
  refine ⟨?_, hx2, by omega, hy2, by omega⟩
  simp only [hx1, hy1]

/-- Witness for C2 at a concrete configuration and raw cell. -/
theorem C2_witness :
    (0:Int) < 10 ∧ (10:Int) ≤ 100 ∧ (10:Int) ≤ 100 ∧
    (constrainToCanvas ⟨100, 100, 10⟩ (-3, 95) =
      ((if (-3:Int) < 0 then 100 - 10 else if (-3:Int) > 100 - 10 then 0 else -3),
       (if (95:Int) < 0 then 100 - 10 else if (95:Int) > 100 - 10 then 0 else 95)) ∧
     0 ≤ (constrainToCanvas ⟨100, 100, 10⟩ (-3, 95)).1 ∧
     (constrainToCanvas ⟨100, 100, 10⟩ (-3, 95)).1 < 100 ∧
     0 ≤ (constrainToCanvas ⟨100, 100, 10⟩ (-3, 95)).2 ∧
     (constrainToCanvas ⟨100, 100, 10⟩ (-3, 95)).2 < 100) :=
  ⟨by decide, by decide, by decide,
   C2_wrap_spec ⟨100, 100, 10⟩ (by decide) (by decide) (by decide) (-3) 95⟩

/-! ### Claim C3: `step` is wrap after a scaled unit translation. -/

/-- Claim C3: `nextCoords` is exactly `constrainToCanvas` applied to the cell
translated by the direction's unit vector scaled by `rectSize`, and the unit
vectors are Up=(0,1), Right=(1,0), Down=(0,-1), Left=(-1,0).  As a plain
function of its arguments it has no effect on any other engine state. -/
theorem C3_step_spec (cfg : Cfg) (d : Direction) (x y : Int) :
    nextCoords cfg d (x, y) =
      constrainToCanvas cfg
        (x + (Transforms d).1 * cfg.rectSize, y + (Transforms d).2 * cfg.rectSize) ∧
    Transforms Direction.Up = (0, 1) ∧
    Transforms Direction.Right = (1, 0) ∧
    Transforms Direction.Down = (0, -1) ∧
    Transforms Direction.Left = (-1, 0) :=
  ⟨rfl, rfl, rfl, rfl, rfl⟩

/-! ### Claim C1: turn selection. -/

theorem find?_characterization {α : Type} (p : α → Bool) (l : List α) :
    (∃ t, l.find? p = some t ∧ p t = true ∧
      ∃ l1 l2, l = l1 ++ t :: l2 ∧ ∀ u ∈ l1, p u = false) ∨
    (l.find? p = none ∧ ∀ u ∈ l, p u = false) := by
  induction l with
  | nil => exact Or.inr ⟨rfl, by simp⟩
  | cons a l ih =>
    cases ha : p a with
    | true =>
      refine Or.inl ⟨a, ?_, ha, [], l, rfl, by simp⟩
      simp [List.find?, ha]
    | false =>
      rcases ih with ⟨t, hf, hp, l1, l2, hl, hall⟩ | ⟨hf, hall⟩
      · refine Or.inl ⟨t, ?_, hp, a :: l1, l2, by simp [hl], ?_⟩
        · simp [List.find?, ha, hf]
        · intro u hu
          rcases List.mem_cons.mp hu with h | h
          · exact h ▸ ha
          · exact hall u h
      · refine Or.inr ⟨?_, ?_⟩
        · simp [List.find?, ha, hf]
        · intro u hu
          rcases List.mem_cons.mp hu with h | h
          · exact h ▸ ha
          · exact hall u h

/-- Claim C1: for every segment cell and non-empty queue, `selectTurn` returns
the first queued (oldest-first) turn the segment has not passed; if the
segment has passed every queued turn it returns the turn at index 0.  In both
cases a result is produced. -/
theorem C1_selectTurn_spec (seg : Coord) (q : List Instr) (hq : q ≠ []) :
    ∃ t, selectTurn seg q = some t ∧
      ((passed seg t = false ∧
        ∃ l1 l2, q = l1 ++ t :: l2 ∧ ∀ u ∈ l1, passed seg u = true) ∨
       ((∀ u ∈ q, passed seg u = true) ∧ q.head? = some t)) := by
  rcases find?_characterization (fun it => ! passed seg it) q with
    ⟨t, hf, hp, l1, l2, hl, hall⟩ | ⟨hf, hall⟩
  · refine ⟨t, ?_, Or.inl ⟨?_, l1, l2, hl, ?_⟩⟩
    · simp [selectTurn, hf]
    · simpa using hp
    · intro u hu
      simpa using hall u hu
  · cases q with
    | nil => exact absurd rfl hq
    | cons a l =>
      refine ⟨a, ?_, Or.inr ⟨?_, rfl⟩⟩
      · simp [selectTurn, hf]
      · intro u hu
        simpa using hall u hu

/-- Witness for C1: a segment at (20, 0) has passed the Right turn issued at
(10, 0) but not the Up turn issued at (20, 0); the second turn is selected. -/
theorem C1_witness :
    ([((Direction.Right, ((10:Int), (0:Int))) : Instr),
      (Direction.Up, ((20:Int), (0:Int)))] ≠ []) ∧
    ∃ t, selectTurn ((20:Int), (0:Int))
        [(Direction.Right, ((10:Int), (0:Int))),
         (Direction.Up, ((20:Int), (0:Int)))] = some t ∧
      ((passed ((20:Int), (0:Int)) t = false ∧
        ∃ l1 l2,
          [((Direction.Right, ((10:Int), (0:Int))) : Instr),
           (Direction.Up, ((20:Int), (0:Int)))] = l1 ++ t :: l2 ∧
          ∀ u ∈ l1, passed ((20:Int), (0:Int)) u = true) ∨
       ((∀ u ∈ [((Direction.Right, ((10:Int), (0:Int))) : Instr),
                (Direction.Up, ((20:Int), (0:Int)))],
           passed ((20:Int), (0:Int)) u = true) ∧
        ([((Direction.Right, ((10:Int), (0:Int))) : Instr),
          (Direction.Up, ((20:Int), (0:Int)))].head? = some t))) :=
  ⟨by decide,
   C1_selectTurn_spec ((20:Int), (0:Int))
     [(Direction.Right, ((10:Int), (0:Int))),
      (Direction.Up, ((20:Int), (0:Int)))] (by decide)⟩

/-! ### Claim C6: initial body synthesis. -/

/-- The initializing branch of `gameLoop` (source lines 118-129): reduce over
`segments` slots, starting from `[head]`; slot 0 reads index -1 (`undefined`
in the source, so the accumulator is returned unchanged), later slots append
one `Left` step from the previous cell. -/
def initBody (cfg : Cfg) (segs : Nat) (head : Coord) : List Coord :=
  (List.range segs).foldl
    (fun next i =>
      if i = 0 then next
      else
        match next.get? (i - 1) with
        | none => next
        | some prev => next ++ [nextCoords cfg Direction.Left prev])
    [head]

/-- One `Left` step, named for iteration. -/
def leftStep (cfg : Cfg) (c : Coord) : Coord := nextCoords cfg Direction.Left c

theorem get?_range_map {β : Type} (g : Nat → β) (n i : Nat) (h : i < n) :
    ((List.range n).map g).get? i = some (g i) := by
  rw [List.get?_map, List.get?_range h]
  rfl

theorem initBody_closed (cfg : Cfg) (head : Coord) (m : Nat) :
    initBody cfg (m + 1) head =
      (List.range (m + 1)).map (fun i => (leftStep cfg)^[i] head) := by
  induction m with
  | zero => rfl
  | succ m ih =>
    unfold initBody at ih ⊢
    have hr : List.range (m + 1 + 1) = List.range (m + 1) ++ [m + 1] :=
      List.range_succ (m + 1)
    rw [hr, List.foldl_append, ih]
    have h2 : ((List.range (m + 1)).map (fun i => (leftStep cfg)^[i] head)).get? (m + 1 - 1)
        = some ((leftStep cfg)^[m] head) := get?_range_map _ _ _ (by omega)
    simp only [List.foldl_cons, List.foldl_nil]
    rw [if_neg (by omega), h2]
    have hit : (leftStep cfg)^[m + 1] head = leftStep cfg ((leftStep cfg)^[m] head) :=
      Function.iterate_succ_apply' (leftStep cfg) m head
    simp [hit, leftStep]

/-- Claim C6: for `segs ≥ 1`, the initial body has exactly `segs` cells, the
head at index 0, and each subsequent cell is one `Left` step (with wrap) from
the previous one. -/
theorem C6_initial_body (cfg : Cfg) (segs : Nat) (head : Coord) (hn : 1 ≤ segs) :
    (initBody cfg segs head).length = segs ∧
    (initBody cfg segs head).get? 0 = some head ∧
    ∀ i c c2, (initBody cfg segs head).get? i = some c →
      (initBody cfg segs head).get? (i + 1) = some c2 →
      c2 = nextCoords cfg Direction.Left c := by
  obtain ⟨m, rfl⟩ : ∃ m, segs = m + 1 := ⟨segs - 1, by omega⟩
  rw [initBody_closed]
  refine ⟨by simp, ?_, ?_⟩
  · rw [get?_range_map _ _ _ (by omega)]
    rfl
  · intro i c c2 h1 h2
    have hi1 : i + 1 < m + 1 := by
      by_contra h
      rw [List.get?_eq_none.mpr (by simp; omega)] at h2
      exact Option.noConfusion h2
    rw [get?_range_map _ _ _ (by omega)] at h1
    rw [get?_range_map _ _ _ hi1] at h2
    have hc : c = (leftStep cfg)^[i] head := by
      exact (Option.some.injEq _ _).mp h1.symm
    have hc2 : c2 = (leftStep cfg)^[i + 1] head := by
      exact (Option.some.injEq _ _).mp h2.symm
    rw [hc, hc2, Function.iterate_succ_apply' (leftStep cfg) i head]
    rfl

/-- Witness for C6: three segments behind head (50, 50), stride 10. -/
theorem C6_witness :
    (1 ≤ 3) ∧
    ((initBody ⟨100, 100, 10⟩ 3 ((50:Int), (50:Int))).length = 3 ∧
     (initBody ⟨100, 100, 10⟩ 3 ((50:Int), (50:Int))).get? 0 =
       some ((50:Int), (50:Int)) ∧
     ∀ i c c2,
       (initBody ⟨100, 100, 10⟩ 3 ((50:Int), (50:Int))).get? i = some c →
       (initBody ⟨100, 100, 10⟩ 3 ((50:Int), (50:Int))).get? (i + 1) = some c2 →
       c2 = nextCoords ⟨100, 100, 10⟩ Direction.Left c) :=
  ⟨by decide, C6_initial_body ⟨100, 100, 10⟩ 3 ((50:Int), (50:Int)) (by decide)⟩

/-! ### Claim C9: the cyclic wrap property. -/

/-- The number of steps `edge/stride` on the axis a direction moves along,
for a playfield `mw` cells wide and `mh` cells tall. -/
def axisCount (mw mh : Nat) : Direction → Nat
  | Direction.Up => mh
  | Direction.Down => mh
  | Direction.Right => mw
  | Direction.Left => mw

/-- Grid displacement of one step along the x axis, as an additive increment
modulo `mw` (Left moves by `mw - 1 ≡ -1`). -/
def dxa (mw : Nat) : Direction → Nat
  | Direction.Right => 1
  | Direction.Left => mw - 1
  | _ => 0

/-- Grid displacement of one step along the y axis, as an additive increment
modulo `mh`. -/
def dya (mh : Nat) : Direction → Nat
  | Direction.Up => 1
  | Direction.Down => mh - 1
  | _ => 0

theorem aligned_nonneg (rs : Int) (hrs : 0 < rs) (k : Nat) : 0 ≤ (k : Int) * rs :=
  mul_nonneg (Int.natCast_nonneg k) hrs.le

theorem aligned_le (rs : Int) (hrs : 0 < rs) (m k : Nat) (hk : k < m) :
    (k : Int) * rs ≤ (m : Int) * rs - rs := by
  have h1 : (k : Int) + 1 ≤ (m : Int) := by exact_mod_cast hk
  have h2 : ((k : Int) + 1) * rs ≤ (m : Int) * rs :=
    mul_le_mul_of_nonneg_right h1 hrs.le
  nlinarith

theorem wrapAxis_step_add (rs : Int) (hrs : 0 < rs) (m k : Nat) (hk : k < m) :
    wrapAxis ((m : Int) * rs - rs) ((k : Int) * rs + rs) =
      (((k + 1) % m : Nat) : Int) * rs := by
  have hm : 0 < m := by omega
  by_cases hkm : k + 1 = m
  · have hmod : (k + 1) % m = 0 := by
      rw [hkm]
      exact Nat.mod_self m
    have hcond : (k : Int) * rs + rs > (m : Int) * rs - rs := by
      have : ((k : Int) + 1) * rs = (m : Int) * rs := by
        rw [show ((k : Int) + 1) = (m : Int) by exact_mod_cast congrArg Nat.cast hkm]
      nlinarith
    rw [wrapAxis, if_pos hcond, hmod]
    simp
  · have hlt : k + 1 < m := by omega
    have hmod : (k + 1) % m = k + 1 := Nat.mod_eq_of_lt hlt
    have hle : (k : Int) * rs + rs ≤ (m : Int) * rs - rs := by
      have := aligned_le rs hrs m (k + 1) hlt
      push_cast at this
      nlinarith
    have hge : 0 ≤ (k : Int) * rs + rs := by
      have := aligned_nonneg rs hrs k
      omega
    rw [wrapAxis, if_neg (by omega), if_neg (by omega), hmod]
    push_cast
    ring

theorem wrapAxis_step_sub (rs : Int) (hrs : 0 < rs) (m k : Nat) (hk : k < m) :
    wrapAxis ((m : Int) * rs - rs) ((k : Int) * rs - rs) =
      (((k + (m - 1)) % m : Nat) : Int) * rs := by
  have hm : 0 < m := by omega
  by_cases hk0 : k = 0
  · subst hk0
    have hmod : (0 + (m - 1)) % m = m - 1 := by
      rw [Nat.zero_add]
      exact Nat.mod_eq_of_lt (by omega)
    have hcond1 : ¬ ((0 : Int) * rs - rs > (m : Int) * rs - rs) := by
      have : (0 : Int) * rs ≤ (m : Int) * rs :=
        mul_le_mul_of_nonneg_right (by exact_mod_cast Nat.zero_le m) hrs.le
      omega
    have hcond2 : (0 : Int) * rs - rs < 0 := by omega
    rw [wrapAxis, if_neg (by push_cast; omega), if_pos (by omega), hmod]
    have hm1 : ((m - 1 : Nat) : Int) = (m : Int) - 1 := by omega
    rw [hm1]
    ring
  · have hk1 : 1 ≤ k := by omega
    have hmod : (k + (m - 1)) % m = k - 1 := by
      have : k + (m - 1) = (k - 1) + m := by omega
      rw [this, Nat.add_mod_right]
      exact Nat.mod_eq_of_lt (by omega)
    have hsub : (k : Int) * rs - rs = ((k - 1 : Nat) : Int) * rs := by
      have : ((k - 1 : Nat) : Int) = (k : Int) - 1 := by omega
      rw [this]
      ring
    have hb1 : 0 ≤ ((k - 1 : Nat) : Int) * rs := aligned_nonneg rs hrs (k - 1)
    have hb2 : ((k - 1 : Nat) : Int) * rs ≤ (m : Int) * rs - rs :=
      aligned_le rs hrs m (k - 1) (by omega)
    rw [hsub, wrapAxis, if_neg (by omega), if_neg (by omega), hmod]

theorem nextCoords_aligned (rs : Int) (hrs : 0 < rs) (mw mh kx ky : Nat)
    (hkx : kx < mw) (hky : ky < mh) (d : Direction) :
    nextCoords ⟨(mw : Int) * rs, (mh : Int) * rs, rs⟩ d
        ((kx : Int) * rs, (ky : Int) * rs) =
      ((((kx + dxa mw d) % mw : Nat) : Int) * rs,
       (((ky + dya mh d) % mh : Nat) : Int) * rs) := by
  have hxid : wrapAxis ((mw : Int) * rs - rs) ((kx : Int) * rs) = (kx : Int) * rs := by
    have h0 := aligned_nonneg rs hrs kx
    have h1 := aligned_le rs hrs mw kx hkx
    unfold wrapAxis
    split_ifs <;> omega
  have hyid : wrapAxis ((mh : Int) * rs - rs) ((ky : Int) * rs) = (ky : Int) * rs := by
    have h0 := aligned_nonneg rs hrs ky
    have h1 := aligned_le rs hrs mh ky hky
    unfold wrapAxis
    split_ifs <;> omega
  have hxmod : ((kx % mw : Nat) : Int) * rs = (kx : Int) * rs := by
    rw [Nat.mod_eq_of_lt hkx]
  have hymod : ((ky % mh : Nat) : Int) * rs = (ky : Int) * rs := by
    rw [Nat.mod_eq_of_lt hky]
  cases d with
  | Up =>
    show constrainToCanvas _ ((kx : Int) * rs + 0 * rs, (ky : Int) * rs + 1 * rs) = _
    rw [constrainToCanvas_eq_wrapAxis]
    dsimp only [dxa, dya]
    rw [show (kx : Int) * rs + 0 * rs = (kx : Int) * rs by ring,
        show (ky : Int) * rs + 1 * rs = (ky : Int) * rs + rs by ring]
    rw [hxid, wrapAxis_step_add rs hrs mh ky hky]
    rw [show kx + 0 = kx by ring, hxmod]
  | Right =>
    show constrainToCanvas _ ((kx : Int) * rs + 1 * rs, (ky : Int) * rs + 0 * rs) = _
    rw [constrainToCanvas_eq_wrapAxis]
    dsimp only [dxa, dya]
    rw [show (kx : Int) * rs + 1 * rs = (kx : Int) * rs + rs by ring,
        show (ky : Int) * rs + 0 * rs = (ky : Int) * rs by ring]
    rw [hyid, wrapAxis_step_add rs hrs mw kx hkx]
    rw [show ky + 0 = ky by ring, hymod]
  | Down =>
    show constrainToCanvas _ ((kx : Int) * rs + 0 * rs, (ky : Int) * rs + -1 * rs) = _
    rw [constrainToCanvas_eq_wrapAxis]
    dsimp only [dxa, dya]
    rw [show (kx : Int) * rs + 0 * rs = (kx : Int) * rs by ring,
        show (ky : Int) * rs + -1 * rs = (ky : Int) * rs - rs by ring]
    rw [hxid, wrapAxis_step_sub rs hrs mh ky hky]
    rw [show kx + 0 = kx by ring, hxmod]
  | Left =>
    show constrainToCanvas _ ((kx : Int) * rs + -1 * rs, (ky : Int) * rs + 0 * rs) = _
    rw [constrainToCanvas_eq_wrapAxis]
    dsimp only [dxa, dya]
    rw [show (kx : Int) * rs + -1 * rs = (kx : Int) * rs - rs by ring,
        show (ky : Int) * rs + 0 * rs = (ky : Int) * rs by ring]
    rw [hyid, wrapAxis_step_sub rs hrs mw kx hkx]
    rw [show ky + 0 = ky by ring, hymod]

theorem nextCoords_aligned_iterate (rs : Int) (hrs : 0 < rs) (mw mh : Nat)
    (d : Direction) (j : Nat) :
    ∀ kx ky : Nat, kx < mw → ky < mh →
      (fun c => nextCoords ⟨(mw : Int) * rs, (mh : Int) * rs, rs⟩ d c)^[j]
          ((kx : Int) * rs, (ky : Int) * rs) =
        ((((kx + j * dxa mw d) % mw : Nat) : Int) * rs,
         (((ky + j * dya mh d) % mh : Nat) : Int) * rs) := by
  induction j with
  | zero =>
    intro kx ky hkx hky
    simp [Nat.mod_eq_of_lt hkx, Nat.mod_eq_of_lt hky]
  | succ j ih =>
    intro kx ky hkx hky
    have hmw : 0 < mw := by omega
    have hmh : 0 < mh := by omega
    rw [Function.iterate_succ_apply']
    rw [ih kx ky hkx hky]
    rw [nextCoords_aligned rs hrs mw mh _ _ (Nat.mod_lt _ hmw) (Nat.mod_lt _ hmh) d]
    have hx : ((kx + j * dxa mw d) % mw + dxa mw d) % mw
        = (kx + (j + 1) * dxa mw d) % mw := by
      rw [Nat.mod_add_mod, Nat.add_mul, Nat.one_mul, ← Nat.add_assoc]
    have hy : ((ky + j * dya mh d) % mh + dya mh d) % mh
        = (ky + (j + 1) * dya mh d) % mh := by
      rw [Nat.mod_add_mod, Nat.add_mul, Nat.one_mul, ← Nat.add_assoc]
    rw [hx, hy]

/-- Counterexample to C9 as stated: on a 100-wide playfield with stride 10,
the cell (5, 0) — which is in bounds but not aligned to the stride grid —
does not return to itself after `edge/stride = 10` Right steps (it ends at
(10, 0), because the wrap jumps from 95 to 0). -/
theorem C9_counterexample :
    (fun c => nextCoords ⟨100, 100, 10⟩ Direction.Right c)^[10]
        ((5:Int), (0:Int)) ≠ ((5:Int), (0:Int)) := by decide

/-- Claim C9 (amended): on a playfield whose width and height are `mw`, `mh`
multiples of the stride, every grid-aligned in-bounds cell
`(kx·rs, ky·rs)` with `kx < mw`, `ky < mh` returns to itself after
`edge/stride` steps (that axis's cell count) in any direction. -/
theorem C9_amended_cycle (rs : Int) (hrs : 0 < rs) (mw mh kx ky : Nat)
    (hkx : kx < mw) (hky : ky < mh) (d : Direction) :
    (fun c => nextCoords ⟨(mw : Int) * rs, (mh : Int) * rs, rs⟩ d c)^[axisCount mw mh d]
        ((kx : Int) * rs, (ky : Int) * rs) = ((kx : Int) * rs, (ky : Int) * rs) := by
  rw [nextCoords_aligned_iterate rs hrs mw mh d (axisCount mw mh d) kx ky hkx hky]
  cases d with
  | Up =>
    dsimp only [axisCount, dxa, dya]
    rw [Nat.mul_zero, Nat.add_zero, Nat.mod_eq_of_lt hkx,
        Nat.mul_one, Nat.add_mod_right, Nat.mod_eq_of_lt hky]
  | Right =>
    dsimp only [axisCount, dxa, dya]
    rw [Nat.mul_zero, Nat.add_zero, Nat.mod_eq_of_lt hky,
        Nat.mul_one, Nat.add_mod_right, Nat.mod_eq_of_lt hkx]
  | Down =>
    dsimp only [axisCount, dxa, dya]
    rw [Nat.mul_zero, Nat.add_zero, Nat.mod_eq_of_lt hkx,
        Nat.add_mul_mod_self_left, Nat.mod_eq_of_lt hky]
  | Left =>
    dsimp only [axisCount, dxa, dya]
    rw [Nat.mul_zero, Nat.add_zero, Nat.mod_eq_of_lt hky,
        Nat.add_mul_mod_self_left, Nat.mod_eq_of_lt hkx]

/-- Witness for C9 (amended): stride 10 on a 3-by-3-cell playfield, starting
at aligned cell (10, 10), direction Right, 3 steps. -/
theorem C9_witness :
    (0:Int) < 10 ∧ 1 < 3 ∧
    (fun c => nextCoords ⟨(3 : Int) * 10, (3 : Int) * 10, 10⟩ Direction.Right c)^[axisCount 3 3 Direction.Right]
        (((1 : Nat) : Int) * 10, ((1 : Nat) : Int) * 10) =
      (((1 : Nat) : Int) * 10, ((1 : Nat) : Int) * 10) :=
  ⟨by decide, by decide,
   C9_amended_cycle 10 (by decide) 3 3 1 1 (by decide) (by decide) Direction.Right⟩

/-! ### The turn queue as stored, pruning, and the full game state machine. -/

/-- `passed` as invoked inside the game loop, on stored instructions.  If the
instruction's coordinate is `undefined` the destructuring
`[instructionX, instructionY]` throws (`none`).  If the segment argument is
`undefined`, the parameter default `[null, null]` applies and JavaScript's
relational operators coerce `null` to `0`, so the segment compares as
`(0, 0)`. -/
def passedM (seg : Option Coord) (it : InstrM) : Option Bool :=
  match it.2 with
  | none => none
  | some c => some (passed (seg.getD (0, 0)) (it.1, c))

/-- `instructions.find((it) => !passed(segment, it))` with the crash made
explicit: outer `none` is a thrown TypeError, inner `none` means the `find`
returned `undefined`. -/
def findNotPassed (seg : Option Coord) : List InstrM → Option (Option InstrM)
  | [] => some none
  | it :: rest =>
    match passedM seg it with
    | none => none
    | some false => some (some it)
    | some true => findNotPassed seg rest

/-- One callback step of `removeUnusedInstructions` (source lines 144-149):
JavaScript `forEach` visits loop indices `0 .. originalLength - 1`; an index
at or beyond the current length is skipped; `splice(i, 1)` removes the
element at the current position `i`, shifting later elements down so the
next loop index skips over the shifted element.  `fuel` is the number of
loop indices still to visit. -/
def pruneFrom {α : Type} (p : α → Bool) (l : List α) (k : Nat) : Nat → List α
  | 0 => l
  | fuel + 1 =>
    match l.get? k with
    | none => pruneFrom p l (k + 1) fuel
    | some a =>
      if k ≠ 0 ∧ p a = false then pruneFrom p (l.eraseIdx k) (k + 1) fuel
      else pruneFrom p l (k + 1) fuel

/-- `instructions.forEach(removeUnusedInstructions)`: the loop bound is the
length at the start of the iteration. -/
def pruneList {α : Type} (p : α → Bool) (l : List α) : List α :=
  pruneFrom p l 0 l.length

/-- One iteration of the steady-state segment loop of `gameLoop` (source
lines 133-142).  `prev` is `prevSquares` (possibly `null`), `next` and
`applied` accumulate `nextSquares` and `appliedInstructions`.  A `none`
result is a thrown TypeError: either `passed` destructured an `undefined`
instruction coordinate, or `instructions[0]` was `undefined` (empty queue)
and `const [direction] = instruction` threw.  When the segment lookup is
`undefined`, `nextCoords`'s parameter default substitutes the module-level
`head` (`headG`). -/
def steadyLoop (cfg : Cfg) (headG : Coord) (prev : Option (List Coord))
    (instrs : List InstrM) :
    List Coord → List InstrM → Nat → Nat → Option (List Coord × List InstrM)
  | next, applied, _, 0 => some (next, applied)
  | next, applied, idx, r + 1 =>
    let seg : Option Coord :=
      match prev with
      | none => none
      | some l => l.get? idx
    match findNotPassed seg instrs with
    | none => none
    | some found =>
      match (match found with
             | some it => some it
             | none => instrs.head?) with
      | none => none
      | some it =>
        steadyLoop cfg headG prev instrs
          (next ++ [nextCoords cfg it.1 (seg.getD headG)])
          (applied ++ [it]) (idx + 1) r

/-- The steady-state branch of `gameLoop`: run the segment loop for
`segs` segments, then prune the instructions not in the applied set. -/
def steadyTick (cfg : Cfg) (segs : Nat) (headG : Coord)
    (prev : Option (List Coord)) (instrs : List InstrM) :
    Option (List Coord × List InstrM) :=
  match steadyLoop cfg headG prev instrs [] [] 0 segs with
  | none => none
  | some (next, applied) =>
    some (next, pruneList (fun it => decide (it ∈ applied)) instrs)

/-- The module-level mutable state, with the two scheduled callbacks
(`setTimeout(gameLoop)` and `requestAnimationFrame(draw)`) modelled as
pending flags.  (The traces considered here re-enter play at most once, so
a boolean pending flag is faithful.) -/
structure GState where
  playing : Bool
  prevSquares : Option (List Coord)
  nextSquares : Option (List Coord)
  instructions : List InstrM
  pendingTick : Bool
  pendingDraw : Bool
deriving DecidableEq

/-- The body the program would consider current: `nextSquares` if present,
else `prevSquares` (exactly the `nextSquares || prevSquares` lookup used by
the key handler). -/
def bodyOf (s : GState) : Option (List Coord) :=
  match s.nextSquares with
  | some b => some b
  | none => s.prevSquares

/-- `draw` (source lines 93-115): publish `nextSquares` into `prevSquares`
if present, then reschedule iff playing (`cancelAnimationFrame` otherwise). -/
def drawFire (s : GState) : GState :=
  let s1 :=
    match s.nextSquares with
    | some b => { s with prevSquares := some b, nextSquares := none }
    | none => s
  { s1 with pendingDraw := s1.playing }

/-- The state mutation done by one `gameLoop` call (source lines 117-150):
initializing branch when both square buffers are `null`, steady branch
otherwise.  `none` is an uncaught exception. -/
def gameLoopCore (cfg : Cfg) (segs : Nat) (headG : Coord) (s : GState) :
    Option GState :=
  if s.prevSquares = none ∧ s.nextSquares = none then
    some { s with nextSquares := some (initBody cfg segs headG) }
  else
    match steadyTick cfg segs headG s.prevSquares s.instructions with
    | none => none
    | some (next, instrs2) =>
      some { s with nextSquares := some next, instructions := instrs2 }

/-- A full `gameLoop` execution: the state mutation followed by the
scheduling tail (source lines 152-157) — reschedule iff playing,
`clearTimeout` (a no-op on the already-fired timer) otherwise. -/
def gameLoopFire (cfg : Cfg) (segs : Nat) (headG : Coord) (s : GState) :
    Option GState :=
  match gameLoopCore cfg segs headG s with
  | none => none
  | some s2 => some { s2 with pendingTick := s2.playing }

/-- The head cell used when recording a turn (source line 175):
`toCoord((nextSquares || prevSquares)?.[0]!)`, `undefined` when no body
exists yet. -/
def headLookup (s : GState) : Option Coord :=
  match bodyOf s with
  | none => none
  | some l => l.head?

/-- External events: the tick timer firing, an animation frame firing, and
the three kinds of key in `handleKeyEvents` (source lines 159-199). -/
inductive Ev where
  | tick
  | frame
  | arrow (d : Direction)
  | enter
  | escape
deriving DecidableEq

/-- One event step.  A timer/frame event with no pending callback is a
no-op.  `enter` while not playing sets `playing`, then calls `draw()` and
`gameLoop()` synchronously; arrows always push `(direction, head)` where the
head cell may be `undefined`; `escape` only clears the playing flag. -/
def stepEv (cfg : Cfg) (segs : Nat) (headG : Coord) :
    Ev → GState → Option GState
  | Ev.tick, s =>
    if s.pendingTick then gameLoopFire cfg segs headG s else some s
  | Ev.frame, s =>
    some (if s.pendingDraw then drawFire s else s)
  | Ev.arrow d, s =>
    some { s with instructions := s.instructions ++ [(d, headLookup s)] }
  | Ev.enter, s =>
    if s.playing then some s
    else gameLoopFire cfg segs headG (drawFire { s with playing := true })
  | Ev.escape, s =>
    some { s with playing := false }

/-- A run of the event loop; `none` once any step throws. -/
def run (cfg : Cfg) (segs : Nat) (headG : Coord) :
    List Ev → GState → Option GState
  | [], s => some s
  | e :: evs, s =>
    match stepEv cfg segs headG e s with
    | none => none
    | some s2 => run cfg segs headG evs s2

/-- How many `gameLoop` executions an event triggers in state `s`: a timer
firing when one is scheduled, or the synchronous call made by `enter` while
not playing. -/
def evFired (e : Ev) (s : GState) : Nat :=
  match e with
  | Ev.tick => if s.pendingTick then 1 else 0
  | Ev.enter => if s.playing then 0 else 1
  | _ => 0

/-- A run that also counts how many times `gameLoop` actually executed. -/
def runCount (cfg : Cfg) (segs : Nat) (headG : Coord) :
    List Ev → GState → Option (GState × Nat)
  | [], s => some (s, 0)
  | e :: evs, s =>
    match stepEv cfg segs headG e s with
    | none => none
    | some s2 =>
      match runCount cfg segs headG evs s2 with
      | none => none
      | some (s3, n) => some (s3, evFired e s + n)

/-- The initial module state (source lines 25-51): not playing, no squares,
the queue seeded with `[Direction.Right, head]`, nothing scheduled. -/
def initState (headG : Coord) : GState :=
  { playing := false
    prevSquares := none
    nextSquares := none
    instructions := [(Direction.Right, some headG)]
    pendingTick := false
    pendingDraw := false }

/-- No `enter` key occurs in the event list. -/
def noEnter (evs : List Ev) : Prop := ∀ e ∈ evs, e ≠ Ev.enter

instance noEnterDecidable (evs : List Ev) : Decidable (noEnter evs) :=
  inferInstanceAs (Decidable (∀ e ∈ evs, e ≠ Ev.enter))

/-! ### Claim C4: pruning misses unapplied turns (splice inside forEach). -/

/-- Claim C4 fails on the code: with one segment at (0, 0) and queue
`[Right@(0,0), Up@(1,1), Down@(2,2)]`, only the `Right` turn is applied, yet
after the tick the unapplied `Down` turn is still in the queue: removing the
`Up` entry at index 1 shifts `Down` to index 1, and the `forEach` loop moves
on to index 2, skipping it.  The second conjunct shows the prune pass itself
(applied set = the `Right` turn only) leaving the unapplied `Down` behind. -/
theorem C4_bug :
    steadyTick ⟨100, 100, 10⟩ 1 ((50:Int), (50:Int)) (some [((0:Int), (0:Int))])
        ([(Direction.Right, some (0, 0)), (Direction.Up, some (1, 1)),
          (Direction.Down, some (2, 2))] : List InstrM) =
      some ([((10:Int), (0:Int))],
        [(Direction.Right, some (0, 0)), (Direction.Down, some (2, 2))]) ∧
    pruneList
        (fun it => decide (it = ((Direction.Right, some ((0:Int), (0:Int))) : InstrM)))
        ([(Direction.Right, some (0, 0)), (Direction.Up, some (1, 1)),
          (Direction.Down, some (2, 2))] : List InstrM) =
      [(Direction.Right, some (0, 0)), (Direction.Down, some (2, 2))] := by
  constructor
  · rfl
  · rfl

/-! ### Claim C5: index 0 of the queue survives every prune and every tick. -/

theorem pruneFrom_head {α : Type} (p : α → Bool) :
    ∀ (fuel : Nat) (l : List α) (k : Nat), 1 ≤ k →
      (pruneFrom p l k fuel).head? = l.head? := by
  intro fuel
  induction fuel with
  | zero => intro l k _; rfl
  | succ fuel ih =>
    intro l k hk
    show (match l.get? k with
          | none => pruneFrom p l (k + 1) fuel
          | some a =>
            if k ≠ 0 ∧ p a = false then pruneFrom p (l.eraseIdx k) (k + 1) fuel
            else pruneFrom p l (k + 1) fuel).head? = l.head?
    cases hget : l.get? k with
    | none => exact ih l (k + 1) (by omega)
    | some a =>
      show (if k ≠ 0 ∧ p a = false then pruneFrom p (l.eraseIdx k) (k + 1) fuel
            else pruneFrom p l (k + 1) fuel).head? = l.head?
      by_cases hcond : k ≠ 0 ∧ p a = false
      · rw [if_pos hcond]
        rw [ih (l.eraseIdx k) (k + 1) (by omega)]
        obtain ⟨m, rfl⟩ : ∃ m, k = m + 1 := ⟨k - 1, by omega⟩
        cases l with
        | nil => simp at hget
        | cons b t => rfl
      · rw [if_neg hcond]
        exact ih l (k + 1) (by omega)

theorem pruneList_head {α : Type} (p : α → Bool) (l : List α) :
    (pruneList p l).head? = l.head? := by
  cases l with
  | nil => rfl
  | cons a t =>
    show (pruneFrom p (a :: t) 0 (t.length + 1)).head? = some a
    show (if (0 : Nat) ≠ 0 ∧ p a = false then
            pruneFrom p ((a :: t).eraseIdx 0) (0 + 1) t.length
          else pruneFrom p (a :: t) (0 + 1) t.length).head? = some a
    rw [if_neg (by simp)]
    exact pruneFrom_head p t.length (a :: t) 1 (by omega)

theorem steadyTick_instrs_head (cfg : Cfg) (segs : Nat) (headG : Coord)
    (prev : Option (List Coord)) (instrs instrs2 : List InstrM)
    (next : List Coord)
    (h : steadyTick cfg segs headG prev instrs = some (next, instrs2)) :
    instrs2.head? = instrs.head? := by
  unfold steadyTick at h
  cases hl : steadyLoop cfg headG prev instrs [] [] 0 segs with
  | none => rw [hl] at h; exact Option.noConfusion h
  | some pair =>
    obtain ⟨next1, applied1⟩ := pair
    rw [hl] at h
    have h2 : (next1, pruneList (fun it => decide (it ∈ applied1)) instrs)
        = (next, instrs2) := (Option.some.injEq _ _).mp h
    have hi : pruneList (fun it => decide (it ∈ applied1)) instrs = instrs2 :=
      congrArg Prod.snd h2
    rw [← hi]
    exact pruneList_head _ instrs

theorem gameLoopCore_spec (cfg : Cfg) (segs : Nat) (headG : Coord)
    (s s2 : GState) (h : gameLoopCore cfg segs headG s = some s2) :
    s2.playing = s.playing ∧ s2.pendingTick = s.pendingTick ∧
    s2.pendingDraw = s.pendingDraw ∧
    s2.instructions.head? = s.instructions.head? := by
  unfold gameLoopCore at h
  by_cases hc : s.prevSquares = none ∧ s.nextSquares = none
  · rw [if_pos hc] at h
    obtain rfl : _ = s2 := (Option.some.injEq _ _).mp h
    exact ⟨rfl, rfl, rfl, rfl⟩
  · rw [if_neg hc] at h
    cases hst : steadyTick cfg segs headG s.prevSquares s.instructions with
    | none => rw [hst] at h; exact Option.noConfusion h
    | some pair =>
      obtain ⟨next, instrs2⟩ := pair
      rw [hst] at h
      obtain rfl : _ = s2 := (Option.some.injEq _ _).mp h
      exact ⟨rfl, rfl, rfl, steadyTick_instrs_head cfg segs headG
        s.prevSquares s.instructions instrs2 next hst⟩

theorem gameLoopFire_spec (cfg : Cfg) (segs : Nat) (headG : Coord)
    (s s2 : GState) (h : gameLoopFire cfg segs headG s = some s2) :
    s2.playing = s.playing ∧ s2.pendingTick = s.playing ∧
    s2.pendingDraw = s.pendingDraw ∧
    s2.instructions.head? = s.instructions.head? := by
  unfold gameLoopFire at h
  cases hcore : gameLoopCore cfg segs headG s with
  | none => rw [hcore] at h; exact Option.noConfusion h
  | some s1 =>
    rw [hcore] at h
    obtain rfl : _ = s2 := (Option.some.injEq _ _).mp h
    obtain ⟨h1, h2, h3, h4⟩ := gameLoopCore_spec cfg segs headG s s1 hcore
    exact ⟨h1, h1, h3, h4⟩

theorem drawFire_preserves (s : GState) :
    (drawFire s).playing = s.playing ∧ (drawFire s).pendingTick = s.pendingTick ∧
    bodyOf (drawFire s) = bodyOf s ∧ (drawFire s).instructions = s.instructions := by
  unfold drawFire bodyOf
  cases h : s.nextSquares with
  | none => simp [h]
  | some b => simp [h]

theorem head?_append_of_some {α : Type} (l l2 : List α) (x : α)
    (h : l.head? = some x) : (l ++ l2).head? = some x := by
  cases l with
  | nil => exact Option.noConfusion h
  | cons a t => exact h

theorem stepEv_head_inv (cfg : Cfg) (segs : Nat) (headG : Coord) (e : Ev)
    (s s2 : GState) (X : InstrM) (h : stepEv cfg segs headG e s = some s2)
    (hs : s.instructions.head? = some X) : s2.instructions.head? = some X := by
  cases e with
  | tick =>
    have hdef : stepEv cfg segs headG Ev.tick s =
        (if s.pendingTick then gameLoopFire cfg segs headG s else some s) := rfl
    rw [hdef] at h
    cases hpt : s.pendingTick with
    | true =>
      rw [hpt, if_pos rfl] at h
      rw [(gameLoopFire_spec cfg segs headG s s2 h).2.2.2]
      exact hs
    | false =>
      rw [hpt, if_neg (by simp)] at h
      obtain rfl : s = s2 := (Option.some.injEq _ _).mp h
      exact hs
  | frame =>
    obtain rfl : (if s.pendingDraw then drawFire s else s) = s2 :=
      (Option.some.injEq _ _).mp h
    cases hpd : s.pendingDraw with
    | true =>
      rw [if_pos rfl, (drawFire_preserves s).2.2.2]
      exact hs
    | false =>
      rw [if_neg (by simp)]
      exact hs
  | arrow d =>
    obtain rfl : _ = s2 := (Option.some.injEq _ _).mp h
    exact head?_append_of_some _ _ _ hs
  | enter =>
    have hdef : stepEv cfg segs headG Ev.enter s =
        (if s.playing then some s
         else gameLoopFire cfg segs headG (drawFire { s with playing := true })) := rfl
    rw [hdef] at h
    cases hp : s.playing with
    | true =>
      rw [hp, if_pos rfl] at h
      obtain rfl : s = s2 := (Option.some.injEq _ _).mp h
      exact hs
    | false =>
      rw [hp, if_neg (by simp)] at h
      rw [(gameLoopFire_spec _ _ _ _ _ h).2.2.2,
        (drawFire_preserves { s with playing := true }).2.2.2]
      exact hs
  | escape =>
    obtain rfl : _ = s2 := (Option.some.injEq _ _).mp h
    exact hs

theorem run_head_inv (cfg : Cfg) (segs : Nat) (headG : Coord) (X : InstrM) :
    ∀ (evs : List Ev) (s s2 : GState),
      run cfg segs headG evs s = some s2 →
      s.instructions.head? = some X → s2.instructions.head? = some X := by
  intro evs
  induction evs with
  | nil =>
    intro s s2 h hs
    obtain rfl : s = s2 := (Option.some.injEq _ _).mp h
    exact hs
  | cons e evs ih =>
    intro s s2 h hs
    unfold run at h
    cases hse : stepEv cfg segs headG e s with
    | none => rw [hse] at h; exact Option.noConfusion h
    | some s1 =>
      rw [hse] at h
      exact ih s1 s2 h (stepEv_head_inv cfg segs headG e s s1 X hse hs)

/-- Claim C5: in every non-crashed state reachable from the initial state,
the element at queue index 0 is still the seed turn `[Right, head]` (so
pruning has never removed index 0 and the queue is never empty), and a prune
pass with any applied set whatsoever leaves index 0 in place. -/
theorem C5_queue_head_invariant (cfg : Cfg) (segs : Nat) (headG : Coord)
    (evs : List Ev) (s2 : GState)
    (h : run cfg segs headG evs (initState headG) = some s2) :
    s2.instructions.head? = some (Direction.Right, some headG) ∧
    s2.instructions ≠ [] ∧
    ∀ p : InstrM → Bool,
      (pruneList p s2.instructions).head? = s2.instructions.head? := by
  have h1 : s2.instructions.head? = some (Direction.Right, some headG) :=
    run_head_inv cfg segs headG (Direction.Right, some headG) evs
      (initState headG) s2 h rfl
  refine ⟨h1, ?_, fun p => pruneList_head p s2.instructions⟩
  intro he
  rw [he] at h1
  exact Option.noConfusion h1

/-- The state reached by pressing Enter from the initial state on a
100-by-100 playfield with stride 10 (used as the C5 witness state). -/
def stateAfterEnter : GState where
  playing := true
  prevSquares := none
  nextSquares := some [((50:Int), (50:Int)), (40, 50), (30, 50), (20, 50), (10, 50)]
  instructions := [(Direction.Right, some (50, 50))]
  pendingTick := true
  pendingDraw := true

/-- Witness for C5: the state reached by pressing Enter from the initial
state on a 100-by-100 playfield with stride 10. -/
theorem C5_witness :
    stateAfterEnter.instructions.head? =
      some (Direction.Right, some ((50:Int), (50:Int))) ∧
    stateAfterEnter.instructions ≠ [] ∧
    ∀ p : InstrM → Bool,
      (pruneList p stateAfterEnter.instructions).head? =
        stateAfterEnter.instructions.head? :=
  C5_queue_head_invariant ⟨100, 100, 10⟩ 5 ((50:Int), (50:Int)) [Ev.enter]
    stateAfterEnter (by decide)

/-! ### Claim C10: the initializing tick leaves the turn queue untouched. -/

/-- Claim C10: when no body exists yet (both square buffers `null`), a
`gameLoop` execution synthesizes the initial body and leaves the turn queue
exactly as it was — same commands, same order — and cannot crash. -/
theorem C10_init_tick_queue (cfg : Cfg) (segs : Nat) (headG : Coord)
    (s : GState) (h1 : s.prevSquares = none) (h2 : s.nextSquares = none) :
    ∃ s2, gameLoopFire cfg segs headG s = some s2 ∧
      s2.instructions = s.instructions ∧
      s2.nextSquares = some (initBody cfg segs headG) ∧
      s2.prevSquares = none ∧ s2.playing = s.playing := by
  refine ⟨{ s with nextSquares := some (initBody cfg segs headG)
                   pendingTick := s.playing }, ?_, rfl, rfl, h1, rfl⟩
  unfold gameLoopFire gameLoopCore
  rw [if_pos ⟨h1, h2⟩]

/-- A playing state with no body yet and two queued turn commands, one of
them with an `undefined` coordinate (used as the C10 witness state). -/
def preInitPlayingState : GState where
  playing := true
  prevSquares := none
  nextSquares := none
  instructions := [(Direction.Right, some ((50:Int), (50:Int))), (Direction.Up, none)]
  pendingTick := true
  pendingDraw := true

/-- Witness for C10: two turn commands (one with an `undefined` coordinate)
queued before the first tick are both still queued after it. -/
theorem C10_witness :
    ∃ s2, gameLoopFire ⟨100, 100, 10⟩ 2 ((50:Int), (50:Int)) preInitPlayingState
        = some s2 ∧
      s2.instructions = preInitPlayingState.instructions ∧
      s2.nextSquares = some (initBody ⟨100, 100, 10⟩ 2 ((50:Int), (50:Int))) ∧
      s2.prevSquares = none ∧
      s2.playing = preInitPlayingState.playing :=
  C10_init_tick_queue ⟨100, 100, 10⟩ 2 ((50:Int), (50:Int)) _ rfl rfl

/-! ### Claim C7: behaviour after a stop command. -/

/-- Counterexample to C7 as stated: press Enter, let two ticks and two frames
elapse, press Escape — and then let the already-scheduled tick timer fire.
The session is not playing, yet the Body still changes once more: the
pending timeout is not cancelled, and `gameLoop` mutates the squares before
it checks `playing`. -/
theorem C7_counterexample :
    (run ⟨100, 100, 10⟩ 5 ((50:Int), (50:Int))
        [Ev.enter, Ev.frame, Ev.tick, Ev.frame, Ev.escape]
        (initState ((50:Int), (50:Int)))).map (fun s => s.playing) = some false ∧
    (run ⟨100, 100, 10⟩ 5 ((50:Int), (50:Int))
        [Ev.enter, Ev.frame, Ev.tick, Ev.frame, Ev.escape, Ev.tick]
        (initState ((50:Int), (50:Int)))).isSome = true ∧
    (run ⟨100, 100, 10⟩ 5 ((50:Int), (50:Int))
        [Ev.enter, Ev.frame, Ev.tick, Ev.frame, Ev.escape]
        (initState ((50:Int), (50:Int)))).map bodyOf ≠
      (run ⟨100, 100, 10⟩ 5 ((50:Int), (50:Int))
        [Ev.enter, Ev.frame, Ev.tick, Ev.frame, Ev.escape, Ev.tick]
        (initState ((50:Int), (50:Int)))).map bodyOf := by
  refine ⟨by decide, by decide, by decide⟩

theorem runCount_cons_some (cfg : Cfg) (segs : Nat) (headG : Coord)
    (e : Ev) (evs : List Ev) (s s1 : GState)
    (hse : stepEv cfg segs headG e s = some s1) :
    runCount cfg segs headG (e :: evs) s =
      match runCount cfg segs headG evs s1 with
      | none => none
      | some (s3, n) => some (s3, evFired e s + n) := by
  show (match stepEv cfg segs headG e s with
        | none => none
        | some s2 =>
          match runCount cfg segs headG evs s2 with
          | none => none
          | some (s3, n) => some (s3, evFired e s + n)) = _
  rw [hse]

theorem runCount_cons_none (cfg : Cfg) (segs : Nat) (headG : Coord)
    (e : Ev) (evs : List Ev) (s : GState)
    (hse : stepEv cfg segs headG e s = none) :
    runCount cfg segs headG (e :: evs) s = none := by
  show (match stepEv cfg segs headG e s with
        | none => none
        | some s2 =>
          match runCount cfg segs headG evs s2 with
          | none => none
          | some (s3, n) => some (s3, evFired e s + n)) = none
  rw [hse]

theorem frameState_preserves (s : GState) :
    (if s.pendingDraw then drawFire s else s).playing = s.playing ∧
    (if s.pendingDraw then drawFire s else s).pendingTick = s.pendingTick ∧
    bodyOf (if s.pendingDraw then drawFire s else s) = bodyOf s := by
  cases hpd : s.pendingDraw with
  | true =>
    rw [if_pos rfl]
    exact ⟨(drawFire_preserves s).1, (drawFire_preserves s).2.1,
      (drawFire_preserves s).2.2.1⟩
  | false =>
    rw [if_neg (by simp)]
    exact ⟨rfl, rfl, rfl⟩

/-- Claim C7 (amended): after a stop command, the engine does not cancel an
already-scheduled tick — that one tick may still run and mutate the Body
once — but it schedules nothing further: over any subsequent events not
containing a start command, the session stays stopped, `gameLoop` runs at
most once (never, if no tick was pending), and if no tick was pending the
Body and the tick schedule are untouched. -/
theorem C7_amended_stop (cfg : Cfg) (segs : Nat) (headG : Coord) :
    ∀ (evs : List Ev) (s s2 : GState) (n : Nat),
      s.playing = false → noEnter evs →
      runCount cfg segs headG evs s = some (s2, n) →
      s2.playing = false ∧ n ≤ (if s.pendingTick then 1 else 0) ∧
      (s.pendingTick = false →
        s2.pendingTick = false ∧ bodyOf s2 = bodyOf s) := by
  intro evs
  induction evs with
  | nil =>
    intro s s2 n hp _ h
    have h2 : (s, 0) = (s2, n) := (Option.some.injEq _ _).mp h
    have hs : s = s2 := congrArg Prod.fst h2
    have hn : 0 = n := congrArg Prod.snd h2
    subst hs
    subst hn
    exact ⟨hp, Nat.zero_le _, fun hpt => ⟨hpt, rfl⟩⟩
  | cons e evs ih =>
    intro s s2 n hp hne h
    have hne2 : noEnter evs := fun x hx => hne x (List.mem_cons_of_mem e hx)
    cases e with
    | tick =>
      cases hpt : s.pendingTick with
      | true =>
        have hse : stepEv cfg segs headG Ev.tick s = gameLoopFire cfg segs headG s := by
          show (if s.pendingTick = true then gameLoopFire cfg segs headG s else some s) = _
          rw [hpt]
          exact if_pos rfl
        cases hg : gameLoopFire cfg segs headG s with
        | none =>
          rw [runCount_cons_none cfg segs headG Ev.tick evs s (hse.trans hg)] at h
          exact Option.noConfusion h
        | some s1 =>
          rw [runCount_cons_some cfg segs headG Ev.tick evs s s1 (hse.trans hg)] at h
          cases hrc : runCount cfg segs headG evs s1 with
          | none => rw [hrc] at h; exact Option.noConfusion h
          | some pair =>
            obtain ⟨s3, n1⟩ := pair
            rw [hrc] at h
            have h2 : (s3, evFired Ev.tick s + n1) = (s2, n) :=
              (Option.some.injEq _ _).mp h
            have hs3 : s3 = s2 := congrArg Prod.fst h2
            have hn : evFired Ev.tick s + n1 = n := congrArg Prod.snd h2
            have hfired : evFired Ev.tick s = 1 := by
              show (if s.pendingTick = true then 1 else 0) = 1
              simp [hpt]
            rw [hfired] at hn
            have hgs := gameLoopFire_spec cfg segs headG s s1 hg
            have hp1 : s1.playing = false := hgs.1.trans hp
            have hpt1 : s1.pendingTick = false := hgs.2.1.trans hp
            obtain ⟨c1, c2, c3⟩ := ih s1 s2 n1 hp1 hne2 (by rw [hrc, hs3])
            refine ⟨c1, ?_, ?_⟩
            · rw [hpt1] at c2
              have hn1 : n1 = 0 := by simpa using c2
              show n ≤ 1
              omega
            · intro habs
              exact Bool.noConfusion habs
      | false =>
        have hse : stepEv cfg segs headG Ev.tick s = some s := by
          show (if s.pendingTick = true then gameLoopFire cfg segs headG s else some s) = _
          rw [hpt]
          exact if_neg (by simp)
        rw [runCount_cons_some cfg segs headG Ev.tick evs s s hse] at h
        cases hrc : runCount cfg segs headG evs s with
        | none => rw [hrc] at h; exact Option.noConfusion h
        | some pair =>
          obtain ⟨s3, n1⟩ := pair
          rw [hrc] at h
          have h2 : (s3, evFired Ev.tick s + n1) = (s2, n) :=
            (Option.some.injEq _ _).mp h
          have hs3 : s3 = s2 := congrArg Prod.fst h2
          have hn : evFired Ev.tick s + n1 = n := congrArg Prod.snd h2
          have hfired : evFired Ev.tick s = 0 := by
            show (if s.pendingTick = true then 1 else 0) = 0
            simp [hpt]
          rw [hfired] at hn
          obtain ⟨c1, c2, c3⟩ := ih s s2 n1 hp hne2 (by rw [hrc, hs3])
          rw [hpt] at c2 c3
          refine ⟨c1, ?_, c3⟩
          have : n = n1 := by omega
          rw [this]
          exact c2
    | frame =>
      have hse : stepEv cfg segs headG Ev.frame s =
          some (if s.pendingDraw then drawFire s else s) := rfl
      rw [runCount_cons_some cfg segs headG Ev.frame evs s _ hse] at h
      cases hrc : runCount cfg segs headG evs
          (if s.pendingDraw then drawFire s else s) with
      | none => rw [hrc] at h; exact Option.noConfusion h
      | some pair =>
        obtain ⟨s3, n1⟩ := pair
        rw [hrc] at h
        have h2 : (s3, evFired Ev.frame s + n1) = (s2, n) :=
          (Option.some.injEq _ _).mp h
        have hs3 : s3 = s2 := congrArg Prod.fst h2
        have hn : evFired Ev.frame s + n1 = n := congrArg Prod.snd h2
        have hfired : evFired Ev.frame s = 0 := rfl
        rw [hfired] at hn
        obtain ⟨f1, f2, f3⟩ := frameState_preserves s
        obtain ⟨c1, c2, c3⟩ := ih (if s.pendingDraw then drawFire s else s) s2 n1
          (f1.trans hp) hne2 (by rw [hrc, hs3])
        refine ⟨c1, ?_, ?_⟩
        · rw [f2] at c2
          have : n = n1 := by omega
          rw [this]
          exact c2
        · intro hpt
          obtain ⟨d1, d2⟩ := c3 (f2.trans hpt)
          exact ⟨d1, d2.trans f3⟩
    | arrow d =>
      have hse : stepEv cfg segs headG (Ev.arrow d) s =
          some { s with instructions := s.instructions ++ [(d, headLookup s)] } := rfl
      rw [runCount_cons_some cfg segs headG (Ev.arrow d) evs s _ hse] at h
      cases hrc : runCount cfg segs headG evs
          { s with instructions := s.instructions ++ [(d, headLookup s)] } with
      | none => rw [hrc] at h; exact Option.noConfusion h
      | some pair =>
        obtain ⟨s3, n1⟩ := pair
        rw [hrc] at h
        have h2 : (s3, evFired (Ev.arrow d) s + n1) = (s2, n) :=
          (Option.some.injEq _ _).mp h
        have hs3 : s3 = s2 := congrArg Prod.fst h2
        have hn : evFired (Ev.arrow d) s + n1 = n := congrArg Prod.snd h2
        have hfired : evFired (Ev.arrow d) s = 0 := rfl
        rw [hfired] at hn
        obtain ⟨c1, c2, c3⟩ := ih
          { s with instructions := s.instructions ++ [(d, headLookup s)] } s2 n1
          hp hne2 (by rw [hrc, hs3])
        refine ⟨c1, ?_, ?_⟩
        · have : n = n1 := by omega
          rw [this]
          exact c2
        · intro hpt
          exact c3 hpt
    | enter =>
      exact absurd rfl (hne Ev.enter (List.mem_cons_self Ev.enter evs))
    | escape =>
      have hse : stepEv cfg segs headG Ev.escape s =
          some { s with playing := false } := rfl
      rw [runCount_cons_some cfg segs headG Ev.escape evs s _ hse] at h
      cases hrc : runCount cfg segs headG evs { s with playing := false } with
      | none => rw [hrc] at h; exact Option.noConfusion h
      | some pair =>
        obtain ⟨s3, n1⟩ := pair
        rw [hrc] at h
        have h2 : (s3, evFired Ev.escape s + n1) = (s2, n) :=
          (Option.some.injEq _ _).mp h
        have hs3 : s3 = s2 := congrArg Prod.fst h2
        have hn : evFired Ev.escape s + n1 = n := congrArg Prod.snd h2
        have hfired : evFired Ev.escape s = 0 := rfl
        rw [hfired] at hn
        obtain ⟨c1, c2, c3⟩ := ih { s with playing := false } s2 n1 rfl hne2
          (by rw [hrc, hs3])
        refine ⟨c1, ?_, ?_⟩
        · have : n = n1 := by omega
          rw [this]
          exact c2
        · intro hpt
          exact c3 hpt

/-- A stopped state with the tick timeout still pending. -/
def stoppedPendingState : GState :=
  { initState ((50:Int), (50:Int)) with pendingTick := true }

/-- The state after the pending tick fires in `stoppedPendingState`. -/
def stateAfterLateTick : GState where
  playing := false
  prevSquares := none
  nextSquares := some [((50:Int), (50:Int)), (40, 50), (30, 50), (20, 50), (10, 50)]
  instructions := [(Direction.Right, some (50, 50))]
  pendingTick := false
  pendingDraw := false

/-- Witness for C7 (amended): one pending tick fires after stop, and
afterwards nothing further is scheduled. -/
theorem C7_witness :
    stoppedPendingState.playing = false ∧ noEnter [Ev.tick] ∧
    (stateAfterLateTick.playing = false ∧
     1 ≤ (if stoppedPendingState.pendingTick then 1 else 0) ∧
     (stoppedPendingState.pendingTick = false →
       stateAfterLateTick.pendingTick = false ∧
       bodyOf stateAfterLateTick = bodyOf stoppedPendingState)) :=
  ⟨rfl, by decide,
   C7_amended_stop ⟨100, 100, 10⟩ 5 ((50:Int), (50:Int)) [Ev.tick]
     stoppedPendingState stateAfterLateTick 1 rfl (by decide) (by decide)⟩

/-! ### Claim C8: a turn command issued before any body exists. -/

/-- Claim C8 fails on the code: on a 30-by-30 playfield (stride 4, head at
(15, 15)), pressing ArrowUp before Enter *does* enqueue a command — with an
`undefined` anchor cell — and the second tick after starting play throws
while destructuring that `undefined` coordinate inside `passed` (the fifth
initial segment wraps to x = 26 > 15, so the search moves past the seed turn
onto the malformed one).  The run crashes (`none`). -/
theorem C8_bug :
    (run ⟨30, 30, 4⟩ 5 ((15:Int), (15:Int)) [Ev.arrow Direction.Up]
        (initState ((15:Int), (15:Int)))).map (fun s => s.instructions) =
      some [(Direction.Right, some (15, 15)), (Direction.Up, none)] ∧
    run ⟨30, 30, 4⟩ 5 ((15:Int), (15:Int))
        [Ev.arrow Direction.Up, Ev.enter, Ev.frame, Ev.tick]
        (initState ((15:Int), (15:Int))) = none := by
  refine ⟨by decide, by decide⟩

end Snake
